import Mathlib

/-!
Verification of the paisa custom-valuation / loan-tracking core.

This file gives a shallow embedding, in Lean 4, of the loan service of the
repository (the note mini-parser, the account pattern matcher, the valuation
evaluator dispatch, and the loan lifecycle deriver) and proves or refutes the
frozen claims about it.

Modelling conventions:
* Go `decimal.Decimal` and `float64` quantities are modelled as `ℚ` (the
  decimal values and all arithmetic appearing in the claims are exact
  rationals; IEEE-754 rounding is not modelled).
* `time.Time` values are modelled as rational numbers of hours since an
  arbitrary epoch; `time.Duration` arithmetic in the source only ever adds
  whole hours, so this is faithful.
* Strings are handled as `List Char` (Go operates on UTF-8 bytes; for the
  operations used here - substring search, splitting, prefix tests -
  byte-level and code-point-level behaviour coincide on valid UTF-8).
* Go's `sort.Slice` is modelled by the stable `List.insertionSort`.  For
  slices of fewer than 13 elements Go's `sort.Slice` runs exactly an
  insertion sort, and on inputs already sorted by the comparator (the only
  larger inputs reachable in the claims below) it returns its input
  unchanged, as does `List.insertionSort`.
-/

/-- Go `int(x)` conversion from `float64`: truncation toward zero. -/
def trunc (q : ℚ) : Int := if 0 ≤ q then ⌊q⌋ else ⌈q⌉

/-- Decimal digits to a natural number, most significant first
(the numeric core used by the `strconv.ParseFloat` model below). -/
def digitsToNat (ds : List Char) : Nat :=
  ds.foldl (fun a c => 10 * a + (c.toNat - 48)) 0

/-- Go `strings.Contains(s, sub)`: `sub` occurs somewhere in `s`
(`true` for an empty `sub`). -/
def containsSub (sub : List Char) : List Char → Bool
  | [] => List.isPrefixOf sub []
  | c :: rest => List.isPrefixOf sub (c :: rest) || containsSub sub rest

/-- Index of the first occurrence of `sub` in `s`, if any.  Used to state
the spec's "first occurrence of the prefix" wording. -/
def firstIdx (sub : List Char) : List Char → Option Nat
  | [] => if List.isPrefixOf sub [] then some 0 else none
  | c :: rest =>
    if List.isPrefixOf sub (c :: rest) then some 0
    else (firstIdx sub rest).map (· + 1)

/-- Core of Go `strings.Split(s, sep)` for a nonempty separator
`c0 :: sep`: greedy left-to-right scan for non-overlapping occurrences.
The `fuel` argument (instantiated with the length of the scanned string,
an upper bound on the number of steps) only makes the recursion
structural; it never runs out. -/
def splitGo (c0 : Char) (sep : List Char) : Nat → List Char → List (List Char)
  | _, [] => [[]]
  | 0, _ :: _ => [[]]
  | fuel + 1, c :: rest =>
    if List.isPrefixOf (c0 :: sep) (c :: rest) then
      [] :: splitGo c0 sep fuel (rest.drop sep.length)
    else
      match splitGo c0 sep fuel rest with
      | [] => [[c]]
      | t :: ts => (c :: t) :: ts

/-- Go `strings.Split(s, sep)`.  An empty separator explodes the string
into its individual characters, as in Go. -/
def splitOnSub (sep s : List Char) : List (List Char) :=
  match sep with
  | [] => s.map (fun c => [c])
  | c0 :: sep' => splitGo c0 sep' s.length s

/-- Syntactic part of the Go `strconv.ParseFloat(s, 64)` model: parses the
plain decimal forms (optional sign, digits with an optional fraction,
optional `e`/`E` exponent) and returns the literal's exact value as a
signed integer mantissa together with a base-10 exponent.  The hex-float,
`inf`/`nan` and digit-separating-underscore forms accepted by Go are not
modelled; every token appearing in a claim below is a plain decimal, where
this model and Go agree. -/
def goParseFloatRaw (s0 : List Char) : Option (Int × Int) :=
  let signAndRest :=
    match s0 with
    | '+' :: t => (false, t)
    | '-' :: t => (true, t)
    | t => (false, t)
  let neg := signAndRest.1
  let s1 := signAndRest.2
  let mant := s1.takeWhile (fun c => !(c == 'e' || c == 'E'))
  let expPart := s1.dropWhile (fun c => !(c == 'e' || c == 'E'))
  let ip := mant.takeWhile (fun c => c != '.')
  let dotAndFrac := mant.dropWhile (fun c => c != '.')
  let fp := match dotAndFrac with | [] => [] | _ :: t => t
  if (!(ip ++ fp).isEmpty) && (ip ++ fp).all Char.isDigit then
    let m : Int := if neg then -(digitsToNat (ip ++ fp) : Int) else (digitsToNat (ip ++ fp) : Int)
    match expPart with
    | [] => some (m, -(fp.length : Int))
    | _ :: et =>
      let esignAndRest :=
        match et with
        | '+' :: t => (false, t)
        | '-' :: t => (true, t)
        | t => (false, t)
      let eneg := esignAndRest.1
      let ed := esignAndRest.2
      if (!ed.isEmpty) && ed.all Char.isDigit then
        let e : Int := if eneg then -(digitsToNat ed : Int) else (digitsToNat ed : Int)
        some (m, e - (fp.length : Int))
      else none
  else none

/-- Model of Go `strconv.ParseFloat(s, 64)`: the exact rational value of
the parsed decimal literal (IEEE-754 rounding and overflow are not
modelled; the values appearing in the claims are exactly representable,
where the rounding is the identity). -/
def goParseFloat (s : List Char) : Option ℚ :=
  (goParseFloatRaw s).map (fun me => (me.1 : ℚ) * (10 : ℚ) ^ me.2)

/-- `parseNoteFloat` from `internal/service` (valuation file): if the
note does not contain the marker it returns `0`; otherwise it splits the
note on the marker, takes the first space-delimited token of the second
piece, and parses it as a float, returning `0` on a parse failure. -/
def parseNoteFloat (note mark : String) : ℚ :=
  let n := note.toList
  let p := mark.toList
  if containsSub p n = false then 0
  else
    match splitOnSub p n with
    | _ :: part1 :: _ =>
      match goParseFloat ((splitOnSub [' '] part1).headD []) with
      | some v => v
      | none => 0
    | _ => 0

/-- `parseNoteString` from `internal/service`: same token extraction as
`parseNoteFloat` but the raw token is returned (empty when absent). -/
def parseNoteString (note mark : String) : String :=
  let n := note.toList
  let p := mark.toList
  if containsSub p n = false then ""
  else
    match splitOnSub p n with
    | _ :: part1 :: _ => String.mk ((splitOnSub [' '] part1).headD [])
    | _ => ""

/-- The claim's description of `parse_note_float`: take the text
immediately following the first occurrence of the prefix, up to the next
whitespace character (or the end of the string), parse it as a float,
and return `0` for a missing prefix or a failed parse. -/
def parseNoteFloatClaim (note pre : String) : ℚ :=
  match firstIdx pre.toList note.toList with
  | none => 0
  | some i =>
    match goParseFloat ((note.toList.drop (i + pre.toList.length)).takeWhile
        (fun c => !c.isWhitespace)) with
    | some v => v
    | none => 0

/-- The amended token rule actually implemented by the source: after the
first occurrence of the prefix, the token stops at the next occurrence
of the prefix (Go `strings.Split` cuts the second piece there) and at
the first space character (only U+0020, not general whitespace). -/
def parseNoteFloatAmended (note pre : String) : ℚ :=
  match firstIdx pre.toList note.toList with
  | none => 0
  | some i =>
    let tail := note.toList.drop (i + pre.toList.length)
    match goParseFloat ((tail.take ((firstIdx pre.toList tail).getD tail.length)).takeWhile
        (fun c => c != ' ')) with
    | some v => v
    | none => 0

/-- A ledger posting (`internal/model/posting`), restricted to the fields
the loan service reads.  `date` is in hours since an arbitrary epoch. -/
structure Posting where
  account : String
  amount : ℚ
  quantity : ℚ
  date : ℚ
  note : String
  transactionNote : String
  commodity : String
deriving DecidableEq

/-- `LoanStatus` from `internal/service`. -/
inductive LoanStatus where
  | active
  | maturing
  | overdue
  | closed
deriving DecidableEq

/-- The `statusOrder` map used by the `GetLoans` display sort. -/
def statusOrderN : LoanStatus → Nat
  | .overdue => 0
  | .maturing => 1
  | .active => 2
  | .closed => 3

/-- A derived `Loan` record from `internal/service`.  `maturityDate` is
`none` for Go's nil pointer. -/
structure Loan where
  account : String
  principal : ℚ
  currentValue : ℚ
  gainAmount : ℚ
  interestRate : ℚ
  period : String
  startDate : ℚ
  maturityDate : Option ℚ
  daysToMaturity : Int
  daysHeld : Int
  status : LoanStatus
  riskLevel : String
  percentComplete : ℚ
  postings : List Posting
deriving DecidableEq

/-- `isLoanClosed` from the loan service: some posting's combined note
(`TransactionNote + " " + Note`), lower-cased, contains `"closed"` or
`"settled"`.  Go's Unicode `strings.ToLower` is modelled by the ASCII
`Char.toLower`, which agrees on all the note text considered here. -/
def isLoanClosed (postings : List Posting) : Bool :=
  postings.any (fun p =>
    let noteChars := (p.transactionNote ++ " " ++ p.note).toList.map Char.toLower
    containsSub "closed".toList noteChars || containsSub "settled".toList noteChars)

/-- Modelled from the spec: `ParseDuration` is called by `buildLoan` but
its definition is not part of the observed source.  Spec §9 gives its
contract: `ParseDuration(token) → days:int`, accepting suffix-coded
tokens (`"Nyr"`, `"Nm"`, `"Nd"`, with a year of 365 days and a month of
30 days), defaulting to `0` for unknown or empty input. -/
def specParseDuration (tok : String) : Int :=
  let parseN : List Char → Int → Int := fun ds mult =>
    if ds ≠ [] ∧ ds.all Char.isDigit then (digitsToNat ds : Int) * mult else 0
  match tok.toList.reverse with
  | 'r' :: 'y' :: ds => parseN ds.reverse 365
  | 'm' :: ds => parseN ds.reverse 30
  | 'd' :: ds => parseN ds.reverse 1
  | _ => 0

/-- Modelled from the spec: `ParseRiskLevel` is called by `buildLoan` but
its definition is not part of the observed source.  Spec §9 gives its
contract: `ParseRiskLevel(note)` yields one of `high`/`medium`/`low`,
defaulting to `"unknown"` when no risk token is present; modelled as
reading a `Risk:` note field. -/
def specParseRiskLevel (note : String) : String :=
  let tok := parseNoteString note "Risk:"
  if tok = "high" ∨ tok = "medium" ∨ tok = "low" then tok else "unknown"

/-- The chronological posting sort at the top of `buildLoan`
(`sort.Slice` by `Date.Before`, modelled as a stable sort). -/
def sortPostings (ps : List Posting) : List Posting :=
  List.insertionSort (fun a b => a.date ≤ b.date) ps

/-- Body of `buildLoan` (the lifecycle deriver of the loan service, in
the version that implements the spec §4.5 closure policy) on the
chronologically sorted, nonempty posting list `first :: rest`.
`marketPrice` stands for `GetMarketPrice(db, p, now)` (a collaborator
defined outside the loan service), `parseDur` for `ParseDuration` and
`parseRisk` for `ParseRiskLevel`.  The quadruple `msd` collects the
status, percent-complete, maturity date and days-to-maturity locals. -/
def buildLoanSorted (marketPrice : Posting → ℚ) (parseDur : String → Int)
    (parseRisk : String → String) (account : String)
    (first : Posting) (rest : List Posting) (now : ℚ) : Loan :=
  let sorted := first :: rest
  let isClosed := isLoanClosed sorted
  let principal := (sorted.map (fun p => if 0 < p.amount then p.amount else 0)).sum
  let currentValue := (sorted.map (fun p => if isClosed then p.amount else marketPrice p)).sum
  let startDate := first.date
  let interestRate := parseNoteFloat first.transactionNote "Int:"
  let period := parseNoteString first.transactionNote "Per:"
  let targetDays := parseDur (parseNoteString first.transactionNote "Target:")
  let riskLevel := parseRisk first.transactionNote
  let daysHeld := trunc ((now - startDate) / 24)
  let msd :=
    if isClosed = true ∨ currentValue ≤ 0 then
      (LoanStatus.closed, (100 : ℚ), (none : Option ℚ), (0 : Int))
    else if 0 < targetDays then
      let md := startDate + (targetDays : ℚ) * 24
      let dtm := trunc ((md - now) / 24)
      let pcRaw := (daysHeld : ℚ) / (targetDays : ℚ) * 100
      let pc := if 100 < pcRaw then (100 : ℚ) else pcRaw
      let st :=
        if dtm < 0 then LoanStatus.overdue
        else if dtm ≤ 30 then LoanStatus.maturing
        else LoanStatus.active
      (st, pc, some md, dtm)
    else (LoanStatus.active, (0 : ℚ), (none : Option ℚ), (0 : Int))
  let gainAmount :=
    if msd.1 = LoanStatus.closed ∧ currentValue ≤ 0 then (0 : ℚ)
    else currentValue - principal
  { account := account, principal := principal, currentValue := currentValue,
    gainAmount := gainAmount, interestRate := interestRate, period := period,
    startDate := startDate, maturityDate := msd.2.2.1, daysToMaturity := msd.2.2.2,
    daysHeld := daysHeld, status := msd.1, riskLevel := riskLevel,
    percentComplete := msd.2.1, postings := sorted }

/-- `buildLoan` from the loan service: `nil` for an empty posting list,
otherwise the loan built from the chronologically sorted postings. -/
def buildLoan (marketPrice : Posting → ℚ) (parseDur : String → Int)
    (parseRisk : String → String) (account : String)
    (postings : List Posting) (now : ℚ) : Option Loan :=
  match sortPostings postings with
  | [] => none
  | first :: rest => some (buildLoanSorted marketPrice parseDur parseRisk account first rest now)

/-- One comparison step of the `GetLoans` display sort: by status rank,
then by account name. -/
def loanLe (a b : Loan) : Prop :=
  statusOrderN a.status < statusOrderN b.status ∨
    (statusOrderN a.status = statusOrderN b.status ∧ a.account ≤ b.account)

instance : DecidableRel loanLe := fun a b => by
  unfold loanLe
  infer_instance

/-- The final `sort.Slice` of `GetLoans` (modelled as a stable sort). -/
def sortLoans (loans : List Loan) : List Loan :=
  List.insertionSort loanLe loans

/-- The account-grouping and loan-building loop of `GetLoans`: each
`(account, postings)` group is passed to `buildLoan`, dropped groups
(`nil` loans) are skipped, and the result is sorted for display. -/
def getLoansFromGroups (marketPrice : Posting → ℚ) (parseDur : String → Int)
    (parseRisk : String → String) (groups : List (String × List Posting))
    (now : ℚ) : List Loan :=
  sortLoans (groups.filterMap (fun g => buildLoan marketPrice parseDur parseRisk g.1 g.2 now))

/-- A `LoanAlert` record from the loan service. -/
structure LoanAlert where
  type : String
  severity : String
  account : String
  message : String
  amount : ℚ
  daysOverdue : Int
  daysToMaturity : Int
deriving DecidableEq

/-- `formatAlertMessage` / `fmt.Sprintf` with a single `%d` verb: the verb
is replaced by the decimal rendering of the integer. -/
def sprintfD (format : String) (n : Int) : String :=
  String.intercalate (toString n) ((splitOnSub "%d".toList format.toList).map (fun l => String.mk l))

/-- The alert emitted by `GetLoanAlerts` for an overdue loan. -/
def overdueAlert (loan : Loan) : LoanAlert :=
  { type := "overdue", severity := "high", account := loan.account,
    message := sprintfD "Loan overdue by %d days" (-loan.daysToMaturity),
    amount := loan.principal, daysOverdue := -loan.daysToMaturity, daysToMaturity := 0 }

/-- The alert emitted by `GetLoanAlerts` for a maturing loan. -/
def maturingAlert (loan : Loan) : LoanAlert :=
  { type := "maturing", severity := "medium", account := loan.account,
    message := sprintfD "Loan matures in %d days" loan.daysToMaturity,
    amount := loan.principal, daysOverdue := 0, daysToMaturity := loan.daysToMaturity }

/-- The alert-generating loop of `GetLoanAlerts`: one alert per overdue or
maturing loan, in loan-processing order; no alert for other statuses. -/
def genAlerts : List Loan → List LoanAlert
  | [] => []
  | loan :: rest =>
    match loan.status with
    | .overdue => overdueAlert loan :: genAlerts rest
    | .maturing => maturingAlert loan :: genAlerts rest
    | _ => genAlerts rest

/-- The `severityOrder` map of `GetLoanAlerts`; as in Go, a severity
missing from the map gets the zero value `0`. -/
def severityRank (s : String) : Nat :=
  if s = "high" then 0 else if s = "medium" then 1 else if s = "low" then 2 else 0

/-- `GetLoanAlerts` on an already-derived loan list: generate the alerts,
then sort them by severity rank (`sort.Slice`, modelled as a stable
sort; the generated list is always already severity-sorted when the
loans come from `GetLoans`, so the model agrees with Go there). -/
def getLoanAlerts (loans : List Loan) : List LoanAlert :=
  List.insertionSort (fun a b => severityRank a.severity ≤ severityRank b.severity)
    (genAlerts loans)

/-- Dynamic value produced by running a compiled `expr` program, as far as
the loan service inspects it: a numeric result, or a value of another
type. -/
inductive ExprValue where
  | num : ℚ → ExprValue
  | str : String → ExprValue
  | boolv : Bool → ExprValue
deriving DecidableEq

/-- Rendering of Go's `%T` verb for the modelled result values. -/
def ExprValue.typeName : ExprValue → String
  | .num _ => "float64"
  | .str _ => "string"
  | .boolv _ => "bool"

/-- `ExprValue.isNumeric v` is `true` exactly on the result types that
both `EvaluateValuation` and `ValidateFormula` treat as numeric. -/
def ExprValue.isNumeric : ExprValue → Bool
  | .num _ => true
  | _ => false

/-- Outcome of the external `expr.Compile` + `expr.Run` pipeline for one
formula and context (the expression engine is a vendored library, not
part of the source under verification, so it is abstracted as this
outcome). -/
inductive RunOutcome where
  | compileErr : String → RunOutcome
  | runtimeErr : String → RunOutcome
  | value : ExprValue → RunOutcome
deriving DecidableEq

/-- The three error kinds produced by `ValidateFormula`. -/
inductive ValidationError where
  | syntaxError : String → ValidationError
  | evaluationError : String → ValidationError
  | typeError : String → ValidationError
deriving DecidableEq

/-- `ValidateFormula` from the loan service, as a function of the
engine outcome: a compile failure is reported as a syntax error, a run
failure as an evaluation error, and a non-numeric result as the
`formula must return a number` type error; a numeric result validates. -/
def validateFormula (outcome : RunOutcome) : Option ValidationError :=
  match outcome with
  | .compileErr e => some (.syntaxError ("syntax error: " ++ e))
  | .runtimeErr e => some (.evaluationError ("evaluation error: " ++ e))
  | .value v =>
    match v with
    | .num _ => none
    | v => some (.typeError ("formula must return a number, got " ++ v.typeName))

/-- `EvaluateValuation` from the loan service, as a function of the
posting's raw amount and the engine outcome.  It returns the computed
price together with the error returned to the caller: on a compile or
run failure it returns the raw amount and the error; a numeric result is
returned as is; a non-numeric result falls back to the raw amount with
no error (only a logged warning). -/
def evaluateValuation (amount : ℚ) (outcome : RunOutcome) : ℚ × Option String :=
  match outcome with
  | .compileErr e => (amount, some e)
  | .runtimeErr e => (amount, some e)
  | .value (.num q) => (q, none)
  | .value _ => (amount, none)

/-- `GetCustomMarketPrice` from the loan service: `matched` is `none`
when `FindCustomValuation` finds no rule for the posting (result
`(0, false)`), otherwise the engine outcome for the matched rule's
formula.  An evaluation error falls back to the posting's raw amount
with the applied flag still `true`. -/
def getCustomMarketPrice (amount : ℚ) (matched : Option RunOutcome) : ℚ × Bool :=
  match matched with
  | none => (0, false)
  | some oc =>
    match evaluateValuation amount oc with
    | (_, some _) => (amount, true)
    | (price, none) => (price, true)

/-- `ValuationContext` from the loan service (the variable environment a
formula is evaluated in). -/
structure ValuationContext where
  amount : ℚ
  quantity : ℚ
  date : ℚ
  daysHeld : ℚ
  monthsHeld : ℚ
  yearsHeld : ℚ
  note : String
  account : String
  commodity : String
deriving DecidableEq

/-- `buildValuationContext` from the loan service: the held durations are
the exact hour difference divided by 24, with the month and year
divisors 30.44 and 365.25. -/
def buildValuationContext (p : Posting) (evaluationDate : ℚ) : ValuationContext :=
  let daysHeld := (evaluationDate - p.date) / 24
  { amount := p.amount, quantity := p.quantity, date := p.date,
    daysHeld := daysHeld, monthsHeld := daysHeld / (30.44 : ℚ),
    yearsHeld := daysHeld / (365.25 : ℚ),
    note := p.transactionNote, account := p.account, commodity := p.commodity }

/-- The sample context built by `PreviewFormula` (`defaultCur` stands for
`config.DefaultCurrency()`).  The date is `daysHeld` days before `now`,
truncated to whole hours as by Go's `time.Duration` conversion. -/
def previewContext (amount daysHeld : ℚ) (note : String) (now : ℚ)
    (defaultCur : String) : ValuationContext :=
  { amount := amount, quantity := 1, date := now - (trunc (daysHeld * 24) : ℚ),
    daysHeld := daysHeld, monthsHeld := daysHeld / (30.44 : ℚ),
    yearsHeld := daysHeld / (365.25 : ℚ),
    note := note, account := "Assets:Preview", commodity := defaultCur }

/-- The `compound_interest` expression function from the loan service.
`powf` stands for Go's `math.Pow`, abstracted because the exact IEEE-754
power is outside this embedding; both the source transliteration and the
spec formula below receive the same `powf`. -/
def compound_interest (powf : ℚ → ℚ → ℚ)
    (principalAmt annualRate days compoundsPerYear : ℚ) : ℚ :=
  let n := if compoundsPerYear = 0 then 12 else compoundsPerYear
  let years := days / 365
  principalAmt * powf (1 + annualRate / 100 / n) (n * years)

/-- The spec's formula for `compound_interest`:
`P * (1 + r/100/n)^(n * d/365)` (same abstract `powf`). -/
def compound_interest_spec (powf : ℚ → ℚ → ℚ) (P r d n : ℚ) : ℚ :=
  P * powf (1 + r / 100 / n) (n * d / 365)

/-- Splits a pattern at the `*` wildcard markers, yielding the literal
segments (`QuoteMeta` escapes everything else, so the regex built by
`matchAccountPattern` is exactly these literal segments joined by
`.*`). -/
def splitOnStar : List Char → List (List Char)
  | [] => [[]]
  | c :: cs =>
    if c = '*' then [] :: splitOnStar cs
    else
      match splitOnStar cs with
      | [] => [[c]]
      | s :: ss => (c :: s) :: ss

/-- A gap matched by `.*` in a Go regexp: any characters except newline
(`.` does not match `\n` without the `s` flag). -/
def gapOk (g : List Char) : Bool := g.all (fun c => c != '\n')

/-- Matcher for the tail `(.* s₁)(.* s₂)…` of the anchored regex built
by `matchAccountPattern`: each remaining literal segment is preceded by
an arbitrary non-newline gap, and the final segment must end exactly at
the end of the account string (the `$` anchor). -/
def tailMatch : List (List Char) → List Char → Bool
  | [], a => a.isEmpty
  | s :: rest, a =>
    (List.range (a.length + 1)).any (fun i =>
      gapOk (a.take i) && List.isPrefixOf s (a.drop i) &&
        tailMatch rest ((a.drop i).drop s.length))

/-- `matchAccountPattern` from the loan service.  The source builds
`"^" + regexp.QuoteMeta(pattern) + "$"` and replaces every escaped
`\*` by `.*`; since `QuoteMeta` escapes every metacharacter, the
resulting regex denotes exactly: the star-free literal segments of the
pattern, in order, anchored at both ends, with `.*` gaps between
them.  That denotation is evaluated here directly. -/
def matchAccountPattern (account pat : String) : Bool :=
  match splitOnStar pat.toList with
  | [] => false
  | s :: rest => List.isPrefixOf s account.toList && tailMatch rest (account.toList.drop s.length)



theorem trunc_intCast (n : Int) : trunc (n : ℚ) = n := by
  unfold trunc
  by_cases h : (0 : ℚ) ≤ (n : ℚ)
  · rw [if_pos h, Int.floor_intCast]
  · rw [if_neg h, Int.ceil_intCast]

theorem trunc_nonneg {q : ℚ} (h : 0 ≤ q) : 0 ≤ trunc q := by
  unfold trunc
  rw [if_pos h]
  exact Int.floor_nonneg.mpr h

example : specParseDuration "5d" = 5 := by decide
example : specParseDuration "3yr" = 1095 := by decide
example : specParseDuration "2m" = 60 := by decide
example : specParseDuration "" = 0 := by decide
example : specParseDuration "xyz" = 0 := by decide
example :
    isLoanClosed [⟨"A", 100, 1, 0, "", "Loan SETTLED today", ""⟩] = true := by decide
example :
    isLoanClosed [⟨"A", 100, 1, 0, "", "live Int:12", ""⟩] = false := by decide
example : matchAccountPattern "Assets:p2p:Lender1" "Assets:p2p:*" = true := by decide
example : matchAccountPattern "Assets:p2p:Lender1:Loan1" "Assets:p2p:*" = true := by decide
example : matchAccountPattern "Assets:p2p" "Assets:p2p:*" = false := by decide
example : matchAccountPattern "Assets:Equity:Stock" "Assets:p2p:*" = false := by decide
example : matchAccountPattern "Assets:p2p:Lender1" "Assets:p2p:Lender1" = true := by decide
example : matchAccountPattern "Assets:p2p:Lender2" "Assets:p2p:Lender1" = false := by decide
example : matchAccountPattern "Assets:Checking" "Assets:*" = true := by decide
example : sprintfD "Loan overdue by %d days" 7 = "Loan overdue by 7 days" := by decide
example : goParseFloatRaw "12.5".toList = some (125, -1) := by decide
example : goParseFloatRaw "3Int:4".toList = none := by decide
example : goParseFloatRaw "-2e3".toList = some (-2, 3) := by decide
example : parseNoteFloat "No interest here" "Int:" = 0 := by decide
example : parseNoteString "Int:12.5 Per:M" "Per:" = "M" := by decide
example : parseNoteFloat "Int:12.5 Per:M" "Int:" = 12.5 := by
  have h : parseNoteFloat "Int:12.5 Per:M" "Int:" = ((125 : Int) : ℚ) * (10 : ℚ) ^ (-1 : ℤ) := rfl
  rw [h]; norm_num
example : parseNoteFloat "Int:3Int:4" "Int:" = 3 := by
  have h : parseNoteFloat "Int:3Int:4" "Int:" = ((3 : Int) : ℚ) * (10 : ℚ) ^ (0 : ℤ) := rfl
  rw [h]; norm_num

/-- C9: `compound_interest(P, r, d, n)` returns
`P * (1 + r/100/n)^(n * d/365)`, and when the supplied `n` is zero it
behaves as if `n` were 12.  Stated for the shared abstract power
function `powf` standing for `math.Pow`. -/
theorem c9_compound_interest (powf : ℚ → ℚ → ℚ) (P r d n : ℚ) :
    (n ≠ 0 → compound_interest powf P r d n = compound_interest_spec powf P r d n) ∧
    compound_interest powf P r d 0 = compound_interest_spec powf P r d 12 := by
  constructor
  · intro hn
    simp only [compound_interest, compound_interest_spec]
    rw [if_neg hn, mul_div_assoc]
  · simp only [compound_interest, compound_interest_spec, if_true]
    rw [mul_div_assoc]

theorem c9_compound_interest_witness :
    compound_interest (fun a b => a + b) 1 2 3 4 =
      compound_interest_spec (fun a b => a + b) 1 2 3 4 :=
  (c9_compound_interest (fun a b => a + b) 1 2 3 4).1 (by norm_num)

/-- C10: the evaluation context sets `days_held` to the exact
(fractional, negative for future-dated postings) hour difference divided
by 24, `months_held` to `days_held / 30.44` and `years_held` to
`days_held / 365.25`; the preview context uses the same divisors. -/
theorem c10_context_divisors :
    (∀ (p : Posting) (t : ℚ),
      (buildValuationContext p t).daysHeld = (t - p.date) / 24 ∧
      (buildValuationContext p t).monthsHeld = (buildValuationContext p t).daysHeld / (30.44 : ℚ) ∧
      (buildValuationContext p t).yearsHeld = (buildValuationContext p t).daysHeld / (365.25 : ℚ) ∧
      (t < p.date → (buildValuationContext p t).daysHeld < 0)) ∧
    (∀ (amount dh : ℚ) (note : String) (now : ℚ) (cur : String),
      (previewContext amount dh note now cur).daysHeld = dh ∧
      (previewContext amount dh note now cur).monthsHeld = dh / (30.44 : ℚ) ∧
      (previewContext amount dh note now cur).yearsHeld = dh / (365.25 : ℚ)) := by
  constructor
  · intro p t
    refine ⟨rfl, rfl, rfl, fun h => ?_⟩
    have h24 : (0 : ℚ) < 24 := by norm_num
    exact div_neg_of_neg_of_pos (by linarith) h24
  · intro amount dh note now cur
    exact ⟨rfl, rfl, rfl⟩

theorem c10_context_divisors_witness :
    (buildValuationContext ⟨"A", 100, 1, 48, "", "", ""⟩ 0).daysHeld < 0 :=
  (c10_context_divisors.1 ⟨"A", 100, 1, 48, "", "", ""⟩ 0).2.2.2 (by norm_num)

/-- C5 counterexample: on a formula whose run result is the non-numeric
value `"string result"`, the evaluator `EvaluateValuation` reports no
error at all - it silently falls back to the raw posting amount - while
only `ValidateFormula` reports the type error.  This refutes the claim
that "the evaluator reports a distinct TypeError ... rather than
silently producing a value". -/
theorem c5_counterexample :
    evaluateValuation 10000 (RunOutcome.value (ExprValue.str "string result")) = (10000, none) ∧
    validateFormula (RunOutcome.value (ExprValue.str "string result")) =
      some (ValidationError.typeError "formula must return a number, got string") :=
  ⟨rfl, rfl⟩

/-- C5 amended: when a formula compiles and evaluates successfully but
its result is not numeric, `ValidateFormula` reports a distinct
`TypeError` (a different error kind from `SyntaxError` and
`RuntimeError`); the non-interactive evaluator `EvaluateValuation`
instead silently falls back to the posting's raw amount with no error. -/
theorem c5_type_error_amended (v : ExprValue) (hv : v.isNumeric = false) :
    validateFormula (RunOutcome.value v) =
        some (ValidationError.typeError ("formula must return a number, got " ++ v.typeName)) ∧
    (∀ m m' : String, ValidationError.typeError m ≠ ValidationError.syntaxError m' ∧
        ValidationError.typeError m ≠ ValidationError.evaluationError m') ∧
    (∀ amount : ℚ, evaluateValuation amount (RunOutcome.value v) = (amount, none)) := by
  refine ⟨?_, ?_, ?_⟩
  · cases v with
    | num q => simp [ExprValue.isNumeric] at hv
    | str s => rfl
    | boolv b => rfl
  · intro m m'
    exact ⟨fun h => ValidationError.noConfusion h, fun h => ValidationError.noConfusion h⟩
  · intro amount
    cases v with
    | num q => simp [ExprValue.isNumeric] at hv
    | str s => rfl
    | boolv b => rfl

theorem c5_type_error_amended_witness :
    validateFormula (RunOutcome.value (ExprValue.boolv true)) =
      some (ValidationError.typeError
        ("formula must return a number, got " ++ (ExprValue.boolv true).typeName)) :=
  (c5_type_error_amended (ExprValue.boolv true) (by decide)).1

/-- C6: during normal loan valuation, a posting whose formula fails to
compile or to evaluate gets its raw amount as the computed value
(`GetCustomMarketPrice` swallows the error and reports the valuation as
applied), and loan building continues over all postings: `buildLoan`
always produces a loan carrying every posting of a nonempty group. -/
theorem c6_failure_fallback :
    (∀ (amount : ℚ) (msg : String),
      getCustomMarketPrice amount (some (RunOutcome.compileErr msg)) = (amount, true) ∧
      getCustomMarketPrice amount (some (RunOutcome.runtimeErr msg)) = (amount, true)) ∧
    (∀ (mp : Posting → ℚ) (pd : String → Int) (pr : String → String)
        (acct : String) (ps : List Posting) (now : ℚ),
      ps ≠ [] →
      ∃ loan, buildLoan mp pd pr acct ps now = some loan ∧
        loan.postings.length = ps.length) := by
  constructor
  · intro amount msg
    exact ⟨rfl, rfl⟩
  · intro mp pd pr acct ps now hne
    have hlen : (sortPostings ps).length = ps.length := List.length_insertionSort _ ps
    unfold buildLoan
    rcases hs : sortPostings ps with _ | ⟨first, rest⟩
    · rw [hs] at hlen
      exact absurd (List.length_eq_zero.mp hlen.symm) hne
    · rw [hs] at hlen
      refine ⟨_, rfl, ?_⟩
      simpa [buildLoanSorted] using hlen

theorem c6_failure_fallback_witness :
    ∃ loan, buildLoan (fun p => p.amount) specParseDuration specParseRiskLevel "Assets:p2p:L1"
        [⟨"Assets:p2p:L1", 100, 1, 0, "", "", ""⟩] 24 = some loan ∧
      loan.postings.length = [(⟨"Assets:p2p:L1", 100, 1, 0, "", "", ""⟩ : Posting)].length :=
  c6_failure_fallback.2 _ _ _ _ _ _ (by decide)

theorem splitOnStar_no_star {l : List Char} (h : ∀ c ∈ l, c ≠ '*') :
    splitOnStar l = [l] := by
  induction l with
  | nil => rfl
  | cons c cs ih =>
    have hc : c ≠ '*' := h c (List.mem_cons_self _ _)
    have ihh := ih (fun x hx => h x (List.mem_cons_of_mem _ hx))
    simp only [splitOnStar, if_neg hc, ihh]

/-- C3: `matchAccountPattern` anchors the literal portion of the pattern
to the whole account string with the wildcard matching any remaining
characters: a pattern without a wildcard matches only the exact account
name, and the spec's three examples evaluate as claimed. -/
theorem c3_match_account_pattern :
    (∀ account pat : String, (∀ c ∈ pat.toList, c ≠ '*') →
      (matchAccountPattern account pat = true ↔ account = pat)) ∧
    matchAccountPattern "Assets:p2p:Lender1" "Assets:p2p:*" = true ∧
    matchAccountPattern "Assets:p2p" "Assets:p2p:*" = false ∧
    matchAccountPattern "Assets:p2p:Lender1" "Assets:p2p:Lender1" = true := by
  refine ⟨?_, by decide, by decide, by decide⟩
  intro account pat hstar
  unfold matchAccountPattern
  rw [splitOnStar_no_star hstar]
  show (List.isPrefixOf pat.toList account.toList &&
      tailMatch [] (account.toList.drop pat.toList.length)) = true ↔ account = pat
  constructor
  · intro h
    simp only [Bool.and_eq_true] at h
    obtain ⟨h1, h2⟩ := h
    obtain ⟨t, ht⟩ := List.isPrefixOf_iff_prefix.mp h1
    have hdrop : account.toList.drop pat.toList.length = t := by
      rw [← ht, List.drop_left]
    have hemp : (account.toList.drop pat.toList.length).isEmpty = true := by
      simpa [tailMatch] using h2
    rw [hdrop] at hemp
    have htnil : t = [] := List.isEmpty_iff.mp hemp
    subst htnil
    have hlist : account.toList = pat.toList := by rw [← ht, List.append_nil]
    cases account with
    | mk d1 =>
      cases pat with
      | mk d2 =>
        simp only [String.toList] at hlist
        rw [hlist]
  · intro h
    subst h
    have h1 : List.isPrefixOf account.toList account.toList = true :=
      List.isPrefixOf_iff_prefix.mpr (List.prefix_refl _)
    have h2 : tailMatch [] (account.toList.drop account.toList.length) = true := by
      simp [tailMatch, List.drop_length]
    rw [h1, h2]
    rfl

theorem c3_match_account_pattern_witness :
    matchAccountPattern "Assets:p2p:Lender2" "Assets:p2p:Lender1" = false := by
  rcases Bool.eq_false_or_eq_true (matchAccountPattern "Assets:p2p:Lender2" "Assets:p2p:Lender1")
    with ht | hf
  · have h := (c3_match_account_pattern.1 "Assets:p2p:Lender2" "Assets:p2p:Lender1"
      (by decide)).mp ht
    exact absurd h (by decide)
  · exact hf

theorem list_pairwise_of_forall {α : Type} {r : α → α → Prop} (h : ∀ a b, r a b) :
    ∀ l : List α, l.Pairwise r := by
  intro l
  induction l with
  | nil => exact List.Pairwise.nil
  | cons x xs ih => exact List.Pairwise.cons (fun b _ => h x b) ih

theorem genAlerts_pairwise_eq (loans : List Loan)
    (hs : loans.Pairwise (fun a b => statusOrderN a.status ≤ statusOrderN b.status)) :
    genAlerts loans =
      (loans.filter (fun l => decide (l.status = LoanStatus.overdue))).map overdueAlert ++
        (loans.filter (fun l => decide (l.status = LoanStatus.maturing))).map maturingAlert := by
  induction loans with
  | nil => rfl
  | cons l rest ih =>
    rw [List.pairwise_cons] at hs
    obtain ⟨hl, hrest⟩ := hs
    have ihr := ih hrest
    cases hstatus : l.status with
    | overdue =>
      simp [genAlerts, hstatus, List.filter_cons, ihr]
    | maturing =>
      have hod : rest.filter (fun x => decide (x.status = LoanStatus.overdue)) = [] := by
        rw [List.filter_eq_nil_iff]
        intro a ha
        have hle := hl a ha
        rw [hstatus] at hle
        simp only [decide_eq_true_eq]
        intro heq
        rw [heq] at hle
        simp [statusOrderN] at hle
      simp [genAlerts, hstatus, List.filter_cons, ihr, hod]
    | active =>
      simp [genAlerts, hstatus, List.filter_cons, ihr]
    | closed =>
      simp [genAlerts, hstatus, List.filter_cons, ihr]

/-- C7: on a status-sorted loan list (the shape `GetLoans` always hands
to `GetLoanAlerts`), the aggregator produces exactly one high-severity
alert per overdue loan and one medium-severity alert per maturing loan,
nothing for other statuses, with every high alert before every medium
alert and ties kept in loan-processing order; the alert contents
(message reporting `-daysToMaturity` resp. `daysToMaturity`, severity,
amount) are fixed by `overdueAlert` and `maturingAlert`. -/
theorem c7_loan_alerts (loans : List Loan)
    (hsorted : loans.Pairwise (fun a b => statusOrderN a.status ≤ statusOrderN b.status)) :
    getLoanAlerts loans =
      (loans.filter (fun l => decide (l.status = LoanStatus.overdue))).map overdueAlert ++
        (loans.filter (fun l => decide (l.status = LoanStatus.maturing))).map maturingAlert := by
  unfold getLoanAlerts
  rw [genAlerts_pairwise_eq loans hsorted]
  apply List.Sorted.insertionSort_eq
  apply List.pairwise_append.mpr
  refine ⟨?_, ?_, ?_⟩
  · rw [List.pairwise_map]
    exact list_pairwise_of_forall (fun a b => by simp [overdueAlert, severityRank]) _
  · rw [List.pairwise_map]
    exact list_pairwise_of_forall (fun a b => by simp [maturingAlert, severityRank]) _
  · intro a ha b hb
    obtain ⟨la, _, hla⟩ := List.mem_map.mp ha
    obtain ⟨lb, _, hlb⟩ := List.mem_map.mp hb
    subst hla
    subst hlb
    simp [overdueAlert, maturingAlert, severityRank]

theorem c7_loan_alerts_witness :
    getLoanAlerts
        [⟨"A", 100, 100, 0, 0, "", 0, some 240, -5, 20, LoanStatus.overdue, "unknown", 100, []⟩,
          ⟨"B", 200, 200, 0, 0, "", 0, some 480, 10, 20, LoanStatus.maturing, "unknown", 80, []⟩] =
      ([⟨"A", 100, 100, 0, 0, "", 0, some 240, -5, 20, LoanStatus.overdue, "unknown", 100, []⟩,
          ⟨"B", 200, 200, 0, 0, "", 0, some 480, 10, 20, LoanStatus.maturing, "unknown", 80,
            []⟩].filter (fun l => decide (l.status = LoanStatus.overdue))).map overdueAlert ++
        ([⟨"A", 100, 100, 0, 0, "", 0, some 240, -5, 20, LoanStatus.overdue, "unknown", 100, []⟩,
          ⟨"B", 200, 200, 0, 0, "", 0, some 480, 10, 20, LoanStatus.maturing, "unknown", 80,
            []⟩].filter (fun l => decide (l.status = LoanStatus.maturing))).map maturingAlert :=
  c7_loan_alerts _ (by
    constructor
    · intro b hb
      rcases List.mem_singleton.mp hb with rfl
      simp [statusOrderN]
    · simp)

/-- C2 counterexample: the `gainAmount` override fires whenever the
balance is non-positive, not only when it is exactly zero.  Two postings
(+100, then -250 with a "loan settled" note) give a closed loan with raw
balance -150 and principal 100; the claim demands
`gainAmount = -150 - 100 = -250`, but the code produces `0`. -/
theorem c2_counterexample :
    (buildLoan (fun p => p.amount) specParseDuration specParseRiskLevel "A"
        [⟨"A", 100, 1, 0, "", "", ""⟩, ⟨"A", -250, 1, 24, "", "loan settled", ""⟩] 48).map
      (fun l => (l.status, l.currentValue, l.principal, l.gainAmount)) =
      some (LoanStatus.closed, -150, 100, 0) ∧
    (0 : ℚ) ≠ (-150 : ℚ) - 100 := by
  refine ⟨?_, by norm_num⟩
  have h1 : buildLoan (fun p => p.amount) specParseDuration specParseRiskLevel "A"
      [⟨"A", 100, 1, 0, "", "", ""⟩, ⟨"A", -250, 1, 24, "", "loan settled", ""⟩] 48 =
      some (buildLoanSorted (fun p => p.amount) specParseDuration specParseRiskLevel "A"
        ⟨"A", 100, 1, 0, "", "", ""⟩ [⟨"A", -250, 1, 24, "", "loan settled", ""⟩] 48) := rfl
  rw [h1, Option.map_some']
  have hclosed : isLoanClosed [(⟨"A", 100, 1, 0, "", "", ""⟩ : Posting),
      ⟨"A", -250, 1, 24, "", "loan settled", ""⟩] = true := by decide
  simp only [buildLoanSorted, hclosed]
  norm_num

/-- C2 amended: for every derived loan, `gainAmount` equals
`currentValue - principal`, except when the status is `Closed` and the
raw balance is less than or equal to zero (the code's `balanceIsZero`
flag), in which case `gainAmount` equals `0`. -/
theorem c2_gain_amended (mp : Posting → ℚ) (pd : String → Int) (pr : String → String)
    (acct : String) (ps : List Posting) (now : ℚ) (loan : Loan)
    (h : buildLoan mp pd pr acct ps now = some loan) :
    (loan.status = LoanStatus.closed ∧ loan.currentValue ≤ 0 → loan.gainAmount = 0) ∧
    (¬(loan.status = LoanStatus.closed ∧ loan.currentValue ≤ 0) →
      loan.gainAmount = loan.currentValue - loan.principal) := by
  unfold buildLoan at h
  rcases hs : sortPostings ps with _ | ⟨first, rest⟩ <;> rw [hs] at h
  · exact absurd h (by simp)
  · have hl := Option.some.inj h
    subst hl
    constructor
    · intro hc
      simp only [buildLoanSorted] at hc ⊢
      rw [if_pos hc]
    · intro hc
      simp only [buildLoanSorted] at hc ⊢
      rw [if_neg hc]

theorem c2_gain_amended_witness :
    ∃ loan, buildLoan (fun p => p.amount) specParseDuration specParseRiskLevel "A"
        [⟨"A", 100, 1, 0, "", "", ""⟩] 24 = some loan ∧
      loan.gainAmount = loan.currentValue - loan.principal := by
  refine ⟨buildLoanSorted (fun p => p.amount) specParseDuration specParseRiskLevel "A"
      ⟨"A", 100, 1, 0, "", "", ""⟩ [] 24, rfl, ?_⟩
  apply (c2_gain_amended (fun p => p.amount) specParseDuration specParseRiskLevel "A"
      [⟨"A", 100, 1, 0, "", "", ""⟩] 24 _ rfl).2
  intro hc
  have hcv := hc.2
  simp only [buildLoanSorted] at hcv
  norm_num at hcv

/-- C8 counterexample: `percentComplete` is only clamped from above.  A
single posting dated 240 hours in the future of the evaluation instant,
with a 5-day target, gives `daysHeld = -10` and
`percentComplete = -10 / 5 * 100 = -200`, outside `[0, 100]`. -/
theorem c8_counterexample :
    (buildLoan (fun p => p.amount) specParseDuration specParseRiskLevel "A"
        [⟨"A", 100, 1, 240, "", "Target:5d", ""⟩] 0).map (fun l => l.percentComplete) =
      some (-200) ∧ ((-200 : ℚ) < 0) := by
  refine ⟨?_, by norm_num⟩
  have h1 : buildLoan (fun p => p.amount) specParseDuration specParseRiskLevel "A"
      [⟨"A", 100, 1, 240, "", "Target:5d", ""⟩] 0 =
      some (buildLoanSorted (fun p => p.amount) specParseDuration specParseRiskLevel "A"
        ⟨"A", 100, 1, 240, "", "Target:5d", ""⟩ [] 0) := rfl
  rw [h1, Option.map_some']
  have hcl : isLoanClosed [(⟨"A", 100, 1, 240, "", "Target:5d", ""⟩ : Posting)] = false := by
    decide
  have htd : specParseDuration (parseNoteString "Target:5d" "Target:") = 5 := by decide
  have hdh : trunc (((0 : ℚ) - 240) / 24) = -10 := by
    rw [show ((0 : ℚ) - 240) / 24 = ((-10 : Int) : ℚ) by norm_num, trunc_intCast]
  simp only [buildLoanSorted, hcl, htd, hdh]
  norm_num

/-- C8 amended: for every derived loan, `percentComplete` is at most 100;
it is additionally at least 0 whenever no posting of the account is
dated after the evaluation instant (for a future-dated earliest posting
the computed value can be negative, as the counterexample shows). -/
theorem c8_percent_complete_amended (mp : Posting → ℚ) (pd : String → Int)
    (pr : String → String) (acct : String) (ps : List Posting) (now : ℚ) (loan : Loan)
    (h : buildLoan mp pd pr acct ps now = some loan) :
    loan.percentComplete ≤ 100 ∧
      ((∀ p ∈ ps, p.date ≤ now) → 0 ≤ loan.percentComplete) := by
  unfold buildLoan at h
  rcases hs : sortPostings ps with _ | ⟨first, rest⟩ <;> rw [hs] at h
  · exact absurd h (by simp)
  · have hfirst : first ∈ ps := by
      have hmem : first ∈ sortPostings ps := by
        rw [hs]
        exact List.mem_cons_self _ _
      simpa [sortPostings, List.mem_insertionSort] using hmem
    have hl := Option.some.inj h
    subst hl
    constructor
    · simp only [buildLoanSorted]
      split_ifs <;> simp_all
    · intro hdates
      have hstart : first.date ≤ now := hdates first hfirst
      have hdh : (0 : Int) ≤ trunc ((now - first.date) / 24) :=
        trunc_nonneg (div_nonneg (by linarith) (by norm_num))
      simp only [buildLoanSorted]
      set T := pd (parseNoteString first.transactionNote "Target:") with hT
      set D := trunc ((now - first.date) / 24) with hD
      have hDq : (0 : ℚ) ≤ (D : ℚ) := by exact_mod_cast hdh
      by_cases hc2 : 0 < T
      · have hpc : (0 : ℚ) ≤ (D : ℚ) / (T : ℚ) * 100 := by
          apply mul_nonneg
          · exact div_nonneg hDq (by exact_mod_cast le_of_lt hc2)
          · norm_num
        split_ifs <;> first | exact hpc | norm_num
      · split_ifs <;> norm_num

theorem c8_percent_complete_amended_witness :
    ∃ loan, buildLoan (fun p => p.amount) specParseDuration specParseRiskLevel "A"
        [⟨"A", 100, 1, 0, "", "Target:5d", ""⟩] 240 = some loan ∧
      loan.percentComplete ≤ 100 ∧ 0 ≤ loan.percentComplete := by
  refine ⟨buildLoanSorted (fun p => p.amount) specParseDuration specParseRiskLevel "A"
      ⟨"A", 100, 1, 0, "", "Target:5d", ""⟩ [] 240, rfl, ?_, ?_⟩
  · exact (c8_percent_complete_amended (fun p => p.amount) specParseDuration
      specParseRiskLevel "A" [⟨"A", 100, 1, 0, "", "Target:5d", ""⟩] 240 _ rfl).1
  · apply (c8_percent_complete_amended (fun p => p.amount) specParseDuration
      specParseRiskLevel "A" [⟨"A", 100, 1, 0, "", "Target:5d", ""⟩] 240 _ rfl).2
    intro p hp
    rcases List.mem_singleton.mp hp with rfl
    norm_num

theorem perm_any_eq {α : Type} {l1 l2 : List α} (h : l1.Perm l2) (f : α → Bool) :
    l1.any f = l2.any f := by
  rcases hb : l2.any f with _ | _
  · rw [List.any_eq_false] at hb ⊢
    intro x hx
    exact hb x (h.mem_iff.mp hx)
  · rw [List.any_eq_true] at hb ⊢
    obtain ⟨x, hx, hfx⟩ := hb
    exact ⟨x, h.mem_iff.mpr hx, hfx⟩

/-- C1: whenever an account's postings carry the closure signal (a
"closed"/"settled" note) or their evaluated value sums to at most zero,
`buildLoan` still returns a loan (it is not dropped), that loan is
`Closed` with `percentComplete = 100` and no maturity date, and it
appears in the loan list built from the account groups. -/
theorem c1_closed_loans (mp : Posting → ℚ) (pd : String → Int) (pr : String → String)
    (groups : List (String × List Posting)) (acct : String) (ps : List Posting) (now : ℚ)
    (hmem : (acct, ps) ∈ groups) (hne : ps ≠ [])
    (hclose : isLoanClosed ps = true ∨ (ps.map mp).sum ≤ 0) :
    ∃ loan, buildLoan mp pd pr acct ps now = some loan ∧
      loan.status = LoanStatus.closed ∧ loan.percentComplete = 100 ∧
      loan.maturityDate = none ∧ loan ∈ getLoansFromGroups mp pd pr groups now := by
  have hlen : (sortPostings ps).length = ps.length := List.length_insertionSort _ ps
  rcases hs : sortPostings ps with _ | ⟨first, rest⟩
  · rw [hs] at hlen
    exact absurd (List.length_eq_zero.mp hlen.symm) hne
  have hperm : (first :: rest).Perm ps := by
    rw [← hs]
    exact List.perm_insertionSort _ ps
  have hiso : isLoanClosed (first :: rest) = isLoanClosed ps := by
    unfold isLoanClosed
    exact perm_any_eq hperm _
  have hbuild : buildLoan mp pd pr acct ps now =
      some (buildLoanSorted mp pd pr acct first rest now) := by
    unfold buildLoan
    rw [hs]
  have hcond : isLoanClosed (first :: rest) = true ∨
      ((first :: rest).map
        (fun p => if isLoanClosed (first :: rest) then p.amount else mp p)).sum ≤ 0 := by
    rcases hclose with hc | hc
    · exact Or.inl (hiso.trans hc)
    · rcases hb : isLoanClosed (first :: rest) with _ | _
      · refine Or.inr ?_
        have hmapeq : List.map (fun p => if false = true then p.amount else mp p)
            (first :: rest) = List.map mp (first :: rest) :=
          List.map_congr_left (fun x _ => by simp)
        rw [hmapeq, (hperm.map mp).sum_eq]
        exact hc
      · exact Or.inl rfl
  refine ⟨buildLoanSorted mp pd pr acct first rest now, hbuild, ?_, ?_, ?_, ?_⟩
  · simp only [buildLoanSorted]
    rw [if_pos hcond]
  · simp only [buildLoanSorted]
    rw [if_pos hcond]
  · simp only [buildLoanSorted]
    rw [if_pos hcond]
  · unfold getLoansFromGroups sortLoans
    rw [List.mem_insertionSort]
    exact List.mem_filterMap.mpr ⟨(acct, ps), hmem, hbuild⟩

theorem c1_closed_loans_witness :
    ∃ loan, buildLoan (fun p => p.amount) specParseDuration specParseRiskLevel "A"
        [⟨"A", 100, 1, 0, "", "loan closed", ""⟩] 24 = some loan ∧
      loan.status = LoanStatus.closed ∧ loan.percentComplete = 100 ∧
      loan.maturityDate = none ∧
      loan ∈ getLoansFromGroups (fun p => p.amount) specParseDuration specParseRiskLevel
        [("A", [⟨"A", 100, 1, 0, "", "loan closed", ""⟩])] 24 :=
  c1_closed_loans (fun p => p.amount) specParseDuration specParseRiskLevel
    [("A", [⟨"A", 100, 1, 0, "", "loan closed", ""⟩])] "A"
    [⟨"A", 100, 1, 0, "", "loan closed", ""⟩] 24
    (List.mem_cons_self _ _) (by decide) (Or.inl (by decide))

theorem containsSub_eq_isSome (sub : List Char) :
    ∀ s : List Char, containsSub sub s = (firstIdx sub s).isSome := by
  intro s
  induction s with
  | nil =>
    rcases h : List.isPrefixOf sub ([] : List Char) with _ | _ <;>
      simp [containsSub, firstIdx, h]
  | cons c rest ih =>
    rcases h : List.isPrefixOf sub (c :: rest) with _ | _
    · rcases hf : firstIdx sub rest with _ | ⟨j⟩ <;>
        simp [containsSub, firstIdx, h, ih, hf]
    · simp [containsSub, firstIdx, h]

theorem splitGo_fuel_irrel (c0 : Char) (sep : List Char) :
    ∀ (fuel : Nat) {s : List Char} (fuel' : Nat), s.length ≤ fuel → s.length ≤ fuel' →
      splitGo c0 sep fuel s = splitGo c0 sep fuel' s := by
  intro fuel
  induction fuel with
  | zero =>
    intro s fuel' h1 h2
    have hnil : s = [] := List.length_eq_zero.mp (Nat.le_zero.mp h1)
    subst hnil
    cases fuel' <;> rfl
  | succ n ih =>
    intro s fuel' h1 h2
    cases s with
    | nil => cases fuel' <;> rfl
    | cons c rest =>
      cases fuel' with
      | zero => exact absurd h2 (by simp)
      | succ m =>
        have hr1 : rest.length ≤ n := by simpa using h1
        have hr2 : rest.length ≤ m := by simpa using h2
        by_cases hp : List.isPrefixOf (c0 :: sep) (c :: rest) = true
        · simp only [splitGo, if_pos hp]
          rw [ih m (by rw [List.length_drop]; omega) (by rw [List.length_drop]; omega)]
        · simp only [splitGo, if_neg hp]
          rw [ih m hr1 hr2]

theorem splitGo_no_occ (c0 : Char) (sep : List Char) :
    ∀ {s : List Char} {fuel : Nat}, s.length ≤ fuel →
      firstIdx (c0 :: sep) s = none → splitGo c0 sep fuel s = [s] := by
  intro s
  induction s with
  | nil =>
    intro fuel h1 h2
    cases fuel <;> rfl
  | cons c rest ih =>
    intro fuel h1 h2
    cases fuel with
    | zero => exact absurd h1 (by simp)
    | succ n =>
      simp only [firstIdx] at h2
      by_cases hp : List.isPrefixOf (c0 :: sep) (c :: rest) = true
      · rw [if_pos hp] at h2
        exact absurd h2 (by simp)
      · rw [if_neg hp] at h2
        have h3 : firstIdx (c0 :: sep) rest = none := by
          rcases hf : firstIdx (c0 :: sep) rest with _ | ⟨j⟩
          · rfl
          · rw [hf] at h2
            simp at h2
        simp only [splitGo, if_neg hp]
        rw [ih (by simpa using h1) h3]

theorem splitGo_first (c0 : Char) (sep : List Char) :
    ∀ {s : List Char} {fuel i : Nat}, s.length ≤ fuel →
      firstIdx (c0 :: sep) s = some i →
      splitGo c0 sep fuel s =
        s.take i :: splitGo c0 sep (s.drop (i + (sep.length + 1))).length
          (s.drop (i + (sep.length + 1))) := by
  intro s
  induction s with
  | nil =>
    intro fuel i h1 h2
    simp [firstIdx] at h2
  | cons c rest ih =>
    intro fuel i h1 h2
    cases fuel with
    | zero => exact absurd h1 (by simp)
    | succ n =>
      by_cases hp : List.isPrefixOf (c0 :: sep) (c :: rest) = true
      · have hi : i = 0 := by
          simp only [firstIdx, if_pos hp] at h2
          exact (Option.some.inj h2).symm
        subst hi
        have hdr : (c :: rest).drop (0 + (sep.length + 1)) = rest.drop sep.length := by
          rw [show 0 + (sep.length + 1) = sep.length + 1 by omega, List.drop_succ_cons]
        rw [hdr]
        simp only [splitGo, if_pos hp]
        rw [splitGo_fuel_irrel c0 sep n ((rest.drop sep.length).length)
          (by rw [List.length_drop]; simp at h1; omega) (le_refl _)]
        rfl
      · have hj : ∃ j, firstIdx (c0 :: sep) rest = some j ∧ i = j + 1 := by
          simp only [firstIdx, if_neg hp] at h2
          rcases hf : firstIdx (c0 :: sep) rest with _ | ⟨j⟩
          · rw [hf] at h2
            simp at h2
          · rw [hf] at h2
            simp only [Option.map_some'] at h2
            exact ⟨j, rfl, (Option.some.inj h2).symm⟩
        obtain ⟨j, hfj, hi⟩ := hj
        subst hi
        have hdr : (c :: rest).drop (j + 1 + (sep.length + 1)) =
            rest.drop (j + (sep.length + 1)) := by
          rw [show j + 1 + (sep.length + 1) = (j + (sep.length + 1)) + 1 by omega,
            List.drop_succ_cons]
        rw [hdr]
        simp only [splitGo, if_neg hp]
        rw [ih (by simpa using h1) hfj]
        rfl

theorem splitGo_ne_nil (c0 : Char) (sep : List Char) (fuel : Nat) (s : List Char) :
    splitGo c0 sep fuel s ≠ [] := by
  cases fuel with
  | zero => cases s <;> simp [splitGo]
  | succ n =>
    cases s with
    | nil => simp [splitGo]
    | cons c rest =>
      simp only [splitGo]
      by_cases hp : List.isPrefixOf (c0 :: sep) (c :: rest) = true
      · rw [if_pos hp]
        simp
      · rw [if_neg hp]
        rcases h : splitGo c0 sep n rest with _ | ⟨t, ts⟩ <;> simp

theorem splitGo_head (c0 : Char) (sep : List Char) (s : List Char) :
    (splitGo c0 sep s.length s).headD [] =
      s.take ((firstIdx (c0 :: sep) s).getD s.length) := by
  rcases h : firstIdx (c0 :: sep) s with _ | ⟨i⟩
  · rw [splitGo_no_occ c0 sep (le_refl _) h]
    simp [List.take_length]
  · rw [splitGo_first c0 sep (le_refl _) h]
    simp

theorem splitGo_single_head (c : Char) :
    ∀ (s : List Char) {fuel : Nat}, s.length ≤ fuel →
      (splitGo c [] fuel s).headD [] = s.takeWhile (fun x => x != c) := by
  intro s
  induction s with
  | nil =>
    intro fuel h
    cases fuel <;> rfl
  | cons x rest ih =>
    intro fuel h
    cases fuel with
    | zero => exact absurd h (by simp)
    | succ n =>
      simp only [splitGo]
      by_cases hp : List.isPrefixOf [c] (x :: rest) = true
      · rw [if_pos hp]
        have hcx : c = x := by
          have : (c == x) = true := by simpa [List.isPrefixOf] using hp
          exact eq_of_beq this
        subst hcx
        simp [List.takeWhile_cons]
      · rw [if_neg hp]
        have hcx : ¬(c = x) := by
          intro he
          subst he
          exact hp (by simp [List.isPrefixOf])
        have hx : (x != c) = true := by
          simp only [bne_iff_ne, ne_eq]
          exact fun he => hcx he.symm
        rcases hsp : splitGo c [] n rest with _ | ⟨t, ts⟩
        · exact absurd hsp (splitGo_ne_nil _ _ _ _)
        · have ht : t = rest.takeWhile (fun y => y != c) := by
            have hh := ih (by simpa using h)
            rw [hsp] at hh
            simpa using hh
          simp [List.takeWhile_cons, hx, ht]

/-- C4 counterexample: in `"Int:3Int:4"` the text after the first
`"Int:"` up to the next whitespace (or end) is `"3Int:4"`, which fails
to parse, so the claim demands `0`; the code splits on `"Int:"`,
truncating the token at the second occurrence, parses `"3"`, and
returns `3`. -/
theorem c4_counterexample :
    parseNoteFloat "Int:3Int:4" "Int:" = 3 ∧ parseNoteFloatClaim "Int:3Int:4" "Int:" = 0 := by
  constructor
  · have h : parseNoteFloat "Int:3Int:4" "Int:" = ((3 : Int) : ℚ) * (10 : ℚ) ^ (0 : ℤ) := rfl
    rw [h]
    norm_num
  · rfl

/-- C4 amended: for every note and nonempty prefix, `parseNoteFloat`
returns `0` when the prefix does not occur; otherwise it takes the text
following the first occurrence of the prefix, truncated at the next
occurrence of the prefix and at the first space character (U+0020), and
parses that as a float, returning `0` on failure; it never errors (it is
a total function). -/
theorem c4_parse_note_float_amended (note pre : String) (hpre : pre ≠ "") :
    parseNoteFloat note pre = parseNoteFloatAmended note pre := by
  obtain ⟨c0, sep, hsep⟩ : ∃ c0 sep, pre.data = c0 :: sep := by
    rcases hp : pre.data with _ | ⟨a, b⟩
    · exfalso
      apply hpre
      cases pre with
      | mk d =>
        have hd : d = [] := by simpa using hp
        rw [hd]
    · exact ⟨a, b, rfl⟩
  unfold parseNoteFloat parseNoteFloatAmended
  simp only [String.toList]
  rw [hsep]
  simp only [List.length_cons]
  rcases hidx : firstIdx (c0 :: sep) note.data with _ | ⟨i⟩
  · have hcont : containsSub (c0 :: sep) note.data = false := by
      rw [containsSub_eq_isSome, hidx]
      rfl
    rw [if_pos hcont]
  · have hcont : containsSub (c0 :: sep) note.data = true := by
      rw [containsSub_eq_isSome, hidx]
      rfl
    have hcontne : ¬(containsSub (c0 :: sep) note.data = false) := by
      simp [hcont]
    rw [if_neg hcontne]
    simp only [splitOnSub]
    rw [splitGo_first c0 sep (le_refl _) hidx]
    set tail := note.data.drop (i + (sep.length + 1)) with htail
    rcases hsp : splitGo c0 sep tail.length tail with _ | ⟨t, ts⟩
    · exact absurd hsp (splitGo_ne_nil _ _ _ _)
    · have ht : t = tail.take ((firstIdx (c0 :: sep) tail).getD tail.length) := by
        have h0 := splitGo_head c0 sep tail
        rw [hsp] at h0
        simpa using h0
      dsimp only
      rw [splitGo_single_head ' ' t (le_refl _), ht]

theorem c4_parse_note_float_amended_witness :
    parseNoteFloat "Int:12.5 Per:M" "Int:" = parseNoteFloatAmended "Int:12.5 Per:M" "Int:" :=
  c4_parse_note_float_amended "Int:12.5 Per:M" "Int:" (by decide)
